import Mathlib

/-!
Shallow embedding of the HMAP hash-table engine (src/hmap.c, src/hmap_intf.h).

Modelling conventions:
* A blob (`HMAP_anon_type`, a pointer plus an unsigned byte count) is modelled
  as a `List Nat` of byte values; the `size` field is the list length.
* C `unsigned int` arithmetic is `Nat` with explicit `% 2 ^ 32` wraparound.
* Fallible paths return `Option`.  A `none` marks undefined behavior of the C
  code: either the unguarded `key_hash % buckets_len` with zero buckets in
  `get_bucket_by_hash`, or a write past the end of the fixed `MAX_COLLISIONS`
  candidate array in `get_entry_by_hash`.
* The doubly linked bucket chain (`next`/`previous` pointers) is modelled by
  the order of a `List`: the head of the list is the head of the chain.
* The caller-supplied allocator (`malloc`/`free` function pointers) only
  matters through its presence at creation time; allocation itself has no
  observable content in the model (the C code never checks for allocation
  failure).  `sizeof` values are fixed at their common LP64 values.
* A table handle (`HMAP_obj_type`) is an `Option hmap_map_type`: `none` is a
  handle whose `data` pointer is null (never created, or already destroyed).
-/

/-- Return status of HMAP interface functions (the C `HMAP_status_t8` enum). -/
inductive HMAP_status_t8 where
  | SUCCESS
  | INVALID_ARG
  | INVALID_DEF
  | KEY_NOT_IN_MAP
  | MAP_UNINITIALIZED
  deriving DecidableEq, Repr

/-- Numeric value of each status in the C enum (`HMAP_status_t8` is an
`unsigned char`). -/
def statusCode : HMAP_status_t8 → Nat
  | .SUCCESS => 0
  | .INVALID_ARG => 1
  | .INVALID_DEF => 2
  | .KEY_NOT_IN_MAP => 3
  | .MAP_UNINITIALIZED => 4

/-- `HMAP_BOOL_FALSE` of the C `HMAP_bool_t8` enum (an `unsigned char`). -/
def HMAP_BOOL_FALSE : Nat := 0

/-- `HMAP_BOOL_TRUE` of the C `HMAP_bool_t8` enum. -/
def HMAP_BOOL_TRUE : Nat := 1

/-- `HMAP_HASH_FUNC_SDBM` of the C `HMAP_hash_func_t8` enum. -/
def HMAP_HASH_FUNC_SDBM : Nat := 0

/-- `HMAP_HASH_FUNC_CUSTOM` of the C `HMAP_hash_func_t8` enum. -/
def HMAP_HASH_FUNC_CUSTOM : Nat := 1

/-- `sizeof(hmap_map_type)` on an LP64 platform: one pointer, five
`unsigned int`, four bytes of padding, three function pointers. -/
def sizeof_hmap_map_type : Nat := 56

/-- `sizeof(hmap_entry_type *)`, the per-bucket pointer, on LP64. -/
def sizeof_bucket_pointer : Nat := 8

/-- `sizeof(hmap_entry_type)` on LP64: two 16-byte `HMAP_anon_type`, one
`unsigned int`, four bytes of padding, two pointers, one `unsigned int`,
four bytes of tail padding. -/
def sizeof_hmap_entry_type : Nat := 64

/-- Wraparound addition of C `unsigned int` values. -/
def wadd (x y : Nat) : Nat := (x + y) % 2 ^ 32

/-- Wraparound subtraction of C `unsigned int` values
(`x - y` computed modulo `2 ^ 32`). -/
def wsub (x y : Nat) : Nat := (x + (2 ^ 32 - y % 2 ^ 32)) % 2 ^ 32

/-- A map entry (`hmap_entry_type`).  The `next`/`previous` chain pointers are
represented by the entry's position in its bucket list; `data.size` and
`key.size` are the list lengths. `size` is the entry's byte footprint as
maintained by the C code. -/
structure hmap_entry_type where
  data : List Nat
  key : List Nat
  key_hash : Nat
  size : Nat
  deriving DecidableEq, Repr

/-- The hash map's private data (`hmap_map_type`).  `buckets_len` is the
length of `buckets`.  The `malloc`/`free` hooks are validated at creation and
have no further observable content, so they are not stored. -/
structure hmap_map_type where
  buckets : List (List hmap_entry_type)
  data_size : Nat
  entry_count : Nat
  key_size : Nat
  size : Nat
  hash : List Nat → Nat

/-- `map->buckets_len`, the number of buckets. -/
def hmap_map_type.buckets_len (map : hmap_map_type) : Nat := map.buckets.length

/-- The hash map definition (`HMAP_def_type`).  The `malloc` and `free`
function pointers are modelled by presence flags; the optional custom hash
function is carried directly. -/
structure HMAP_def_type where
  map_size : Nat
  hash_type : Nat
  hash : Option (List Nat → Nat)
  malloc_present : Bool
  free_present : Bool

/-- `hash_sdbm`: the default hash.  For each byte,
`hash = (hash << 16) + (hash << 6) - hash + byte`, in `unsigned int`
(wraparound modulo `2 ^ 32`) arithmetic.  The accumulator stays below
`2 ^ 32`, so the C wraparound of each step is exactly the trailing
`% 2 ^ 32`; bytes are `unsigned char`, hence the `% 256` view of the input. -/
def hash_sdbm (key : List Nat) : Nat :=
  key.foldl (fun hash b => ((hash <<< 16) + (hash <<< 6) - hash + b % 256) % 2 ^ 32) 0

/-- `anon_data_match`: size comparison followed by a byte-for-byte comparison,
which is exactly list equality. -/
def anon_data_match (data_1 data_2 : List Nat) : Bool := data_1 == data_2

/-- `HMAP_create`.  `hmap_def = none` models a null definition pointer and
`out_obj = false` a null out-object pointer.  On success the returned map has
all buckets empty, zeroed counters and `size` equal to the map struct plus
bucket array overhead.  A custom hash function is wrapped to the
`HMAP_hash_val_type` (`unsigned int`) range at the type boundary. -/
def HMAP_create (hmap_def : Option HMAP_def_type) (out_obj : Bool) :
    HMAP_status_t8 × Option hmap_map_type :=
  match hmap_def with
  | none => (.INVALID_ARG, none)
  | some d =>
    if out_obj = false then (.INVALID_ARG, none)
    else if !d.malloc_present || !d.free_present then (.INVALID_DEF, none)
    else
      let map0 : hmap_map_type :=
        { buckets := List.replicate d.map_size []
          data_size := 0
          entry_count := 0
          key_size := 0
          size := (sizeof_hmap_map_type + sizeof_bucket_pointer * d.map_size) % 2 ^ 32
          hash := hash_sdbm }
      if d.hash_type = HMAP_HASH_FUNC_CUSTOM then
        match d.hash with
        | none => (.INVALID_DEF, none)
        | some f => (.SUCCESS, some { map0 with hash := fun b => f b % 2 ^ 32 })
      else (.SUCCESS, some map0)

/-- `get_bucket_by_hash` computes `key_hash % map->buckets_len` with no guard;
with zero buckets this is a division by zero, returned as `none`.  The bucket
index stands for the C bucket pointer. -/
def get_bucket_by_hash (map : hmap_map_type) (key_hash : Nat) : Option Nat :=
  if map.buckets_len = 0 then none
  else some (key_hash % map.buckets_len)

/-- `MAX_COLLISIONS`, the size of the stack candidate array in
`get_entry_by_key`. -/
def MAX_COLLISIONS : Nat := 5

/-- `get_entry_by_hash` walks the bucket chain and stores every entry whose
cached hash equals `key_hash` into the caller's `entries` array of capacity
`entries_len`.  The C code overwrites the `entries_len` parameter with the
running count and never checks the capacity, so storing more than
`entries_len` matches writes past the end of the caller's array: that
out-of-bounds write is `none`.  Otherwise the chain-ordered list of matches is
returned. -/
def get_entry_by_hash (map : hmap_map_type) (key_hash : Nat) (entries_len : Nat) :
    Option (List hmap_entry_type) :=
  match get_bucket_by_hash map key_hash with
  | none => none
  | some i =>
    let found := (map.buckets.getD i []).filter (fun e => e.key_hash == key_hash)
    if found.length ≤ entries_len then some found else none

/-- `get_entry_by_key`: hash the key, collect the same-hash candidates into a
`MAX_COLLISIONS`-sized array, then return the first whose stored key is
byte-identical to `key` (`some none` when absent; outer `none` is undefined
behavior from the helpers). -/
def get_entry_by_key (map : hmap_map_type) (key : List Nat) :
    Option (Option hmap_entry_type) :=
  let key_hash := map.hash key
  match get_entry_by_hash map key_hash MAX_COLLISIONS with
  | none => none
  | some entries => some (entries.find? (fun e => anon_data_match e.key key))

/-- `create_entry`: build the entry (copying key and data, caching the hash,
recording its byte footprint) and update the map's aggregates.  Linking into
the bucket is done by the caller, as in the C code. -/
def create_entry (map : hmap_map_type) (key data : List Nat) :
    hmap_entry_type × hmap_map_type :=
  let esize := (data.length + key.length + sizeof_hmap_entry_type) % 2 ^ 32
  let entry : hmap_entry_type :=
    { data := data, key := key, key_hash := map.hash key, size := esize }
  (entry,
    { map with
        entry_count := wadd map.entry_count 1
        data_size := wadd map.data_size data.length
        key_size := wadd map.key_size key.length
        size := wadd map.size esize })

/-- `destroy_entry`: roll the destroyed entry out of the aggregates (the
frees themselves have no observable content). -/
def destroy_entry (map : hmap_map_type) (entry : hmap_entry_type) : hmap_map_type :=
  { map with
      entry_count := wsub map.entry_count 1
      data_size := wsub map.data_size entry.data.length
      key_size := wsub map.key_size entry.key.length
      size := wsub map.size entry.size }

/-- Replace the first entry satisfying `p` by its image under `f`; the list
view of the C code mutating the entry found by `get_entry_by_key` in place. -/
def updateFirst (p : hmap_entry_type → Bool) (f : hmap_entry_type → hmap_entry_type) :
    List hmap_entry_type → List hmap_entry_type
  | [] => []
  | e :: es => if p e then f e :: es else e :: updateFirst p f es

/-- Drop the first entry satisfying `p`; the list view of the C code unlinking
the entry found by `get_entry_by_key` from its chain. -/
def eraseFirst (p : hmap_entry_type → Bool) :
    List hmap_entry_type → List hmap_entry_type
  | [] => []
  | e :: es => if p e then es else e :: eraseFirst p es

/-- `HMAP_destroy`: frees all entries, the bucket array and the map, and nulls
`obj->data`; on an uninitialized handle it reports `MAP_UNINITIALIZED`.  The
returned handle is the new value of `obj->data`. -/
def HMAP_destroy (obj : Option hmap_map_type) :
    HMAP_status_t8 × Option hmap_map_type :=
  match obj with
  | none => (.MAP_UNINITIALIZED, none)
  | some _ => (.SUCCESS, none)

/-- `HMAP_get_data`: look the key up and copy the entry's value out to the
caller (`copy_anon_data` into the caller's buffer — the caller receives the
bytes, not a pointer into the table). -/
def HMAP_get_data (obj : Option hmap_map_type) (key : List Nat) :
    Option (HMAP_status_t8 × Option (List Nat)) :=
  match obj with
  | none => some (.MAP_UNINITIALIZED, none)
  | some map =>
    match get_entry_by_key map key with
    | none => none
    | some none => some (.KEY_NOT_IN_MAP, none)
    | some (some entry) => some (.SUCCESS, some entry.data)

/-- `HMAP_get_entry_count`. -/
def HMAP_get_entry_count (obj : Option hmap_map_type) :
    HMAP_status_t8 × Option Nat :=
  match obj with
  | none => (.MAP_UNINITIALIZED, none)
  | some map => (.SUCCESS, some map.entry_count)

/-- `HMAP_get_hash`: apply the map's hash strategy to caller data. -/
def HMAP_get_hash (obj : Option hmap_map_type) (data : List Nat) :
    HMAP_status_t8 × Option Nat :=
  match obj with
  | none => (.MAP_UNINITIALIZED, none)
  | some map => (.SUCCESS, some (map.hash data))

/-- `HMAP_get_size`. -/
def HMAP_get_size (obj : Option hmap_map_type) :
    HMAP_status_t8 × Option Nat :=
  match obj with
  | none => (.MAP_UNINITIALIZED, none)
  | some map => (.SUCCESS, some map.size)

/-- `HMAP_key_in_map`: returns the `HMAP_bool_t8` byte (`0` false, `1` true);
false on a null or uninitialized handle. -/
def HMAP_key_in_map (obj : Option hmap_map_type) (key : List Nat) : Option Nat :=
  match obj with
  | none => some HMAP_BOOL_FALSE
  | some map =>
    match get_entry_by_key map key with
    | none => none
    | some none => some HMAP_BOOL_FALSE
    | some (some _) => some HMAP_BOOL_TRUE

/-- `HMAP_remove_entry`: find the entry; if present, unlink it from its chain
(the first chain entry whose cached hash and stored key both match, which is
the entry `get_entry_by_key` returned) and destroy it; removing an absent key
is a success no-op. -/
def HMAP_remove_entry (obj : Option hmap_map_type) (key : List Nat) :
    Option (HMAP_status_t8 × Option hmap_map_type) :=
  match obj with
  | none => some (.MAP_UNINITIALIZED, none)
  | some map =>
    match get_entry_by_key map key with
    | none => none
    | some none => some (.SUCCESS, some map)
    | some (some entry) =>
      let i := entry.key_hash % map.buckets_len
      let bucket := map.buckets.getD i []
      let unlinked :=
        { map with
            buckets := map.buckets.set i
              (eraseFirst (fun e => e.key_hash == entry.key_hash
                && anon_data_match e.key key) bucket) }
      some (.SUCCESS, some (destroy_entry unlinked entry))

/-- `HMAP_set_data`: if the key is absent, create an entry and push it to the
head of its bucket; if present, adjust `data_size`/`size` by the length delta
when the value length changes (the C code also reallocates the value storage
then; the entry's `size` field is left as it was) and store the new bytes.
The updated entry is the first chain entry whose cached hash and stored key
both match, which is the entry `get_entry_by_key` returned. -/
def HMAP_set_data (obj : Option hmap_map_type) (key data : List Nat) :
    Option (HMAP_status_t8 × Option hmap_map_type) :=
  match obj with
  | none => some (.MAP_UNINITIALIZED, none)
  | some map =>
    match get_entry_by_key map key with
    | none => none
    | some (some entry) =>
      let key_hash := map.hash key
      let i := key_hash % map.buckets_len
      let resized :=
        if entry.data.length ≠ data.length then
          { map with
              data_size := wsub (wadd map.data_size data.length) entry.data.length
              size := wsub (wadd map.size data.length) entry.data.length }
        else map
      let bucket := resized.buckets.getD i []
      some (.SUCCESS, some
        { resized with
            buckets := resized.buckets.set i
              (updateFirst (fun e => e.key_hash == key_hash
                  && anon_data_match e.key key)
                (fun e => { e with data := data }) bucket) })
    | some none =>
      let created := create_entry map key data
      let entry := created.1
      let map_1 := created.2
      let i := entry.key_hash % map_1.buckets_len
      let bucket := map_1.buckets.getD i []
      some (.SUCCESS, some
        { map_1 with buckets := map_1.buckets.set i (entry :: bucket) })

/-- A mutating call against a live table: the operations quantified over in
the spec's reachability claims. -/
inductive HMAP_op where
  | set (key data : List Nat)
  | remove (key : List Nat)

/-- Run one operation; `none` when the operation runs into undefined
behavior. -/
def run_op (m : hmap_map_type) : HMAP_op → Option hmap_map_type
  | .set key data =>
    match HMAP_set_data (some m) key data with
    | some (.SUCCESS, some m2) => some m2
    | _ => none
  | .remove key =>
    match HMAP_remove_entry (some m) key with
    | some (.SUCCESS, some m2) => some m2
    | _ => none

/-- Run a sequence of operations against a live table. -/
def run_ops (m : hmap_map_type) : List HMAP_op → Option hmap_map_type
  | [] => some m
  | op :: ops =>
    match run_op m op with
    | none => none
    | some m2 => run_ops m2 ops

/-- One step of the hash recurrence exactly as the spec words it, in the
wrapping arithmetic of `ZMod (2 ^ 32)` (the table's native unsigned word
width): `accumulator = (accumulator << 16) + (accumulator << 6) - accumulator
+ b`. -/
def spec_sdbm_step (acc : ZMod (2 ^ 32)) (b : Nat) : ZMod (2 ^ 32) :=
  acc * 2 ^ 16 + acc * 2 ^ 6 - acc + (b : ZMod (2 ^ 32))

/-- The spec's default-hash recurrence: accumulator starts at zero and is
stepped once per input byte, in order. -/
def spec_sdbm (key : List Nat) : ZMod (2 ^ 32) :=
  key.foldl spec_sdbm_step 0

/-- The spec's size invariant for a table state: fixed table overhead plus
bucket-array overhead plus the sum of every reachable entry's `size`
(`byte_size`) field, as an `unsigned int`. -/
def totalFromParts (m : hmap_map_type) : Nat :=
  (sizeof_hmap_map_type + sizeof_bucket_pointer * m.buckets.length
    + (m.buckets.flatten.map hmap_entry_type.size).sum) % 2 ^ 32

/-- A one-bucket definition using the default (SDBM) hash. -/
def default_def_1 : HMAP_def_type :=
  { map_size := 1, hash_type := HMAP_HASH_FUNC_SDBM, hash := none
    malloc_present := true, free_present := true }

/-- An eight-bucket definition using the default (SDBM) hash. -/
def default_def_8 : HMAP_def_type :=
  { map_size := 8, hash_type := HMAP_HASH_FUNC_SDBM, hash := none
    malloc_present := true, free_present := true }

/-- A one-bucket definition with a custom hash that sends every key to `0`:
every key shares one hash value, the collision scenario of the spec. -/
def const_def : HMAP_def_type :=
  { map_size := 1, hash_type := HMAP_HASH_FUNC_CUSTOM, hash := some (fun _ => 0)
    malloc_present := true, free_present := true }

/-- The freshly created constant-hash table. -/
def const_map : Option hmap_map_type := (HMAP_create (some const_def) true).2

/-- Five sets of five distinct one-byte keys, all hashing to `0`. -/
def ops5 : List HMAP_op :=
  [.set [0] [100], .set [1] [101], .set [2] [102], .set [3] [103], .set [4] [104]]

/-- A sixth distinct key with the same hash value. -/
def ops6 : List HMAP_op := ops5 ++ [.set [5] [105]]

/-- The constant-hash table holding five same-hash keys. -/
def map5 : Option hmap_map_type := const_map.bind (fun m => run_ops m ops5)

/-- The constant-hash table holding six same-hash keys (still reachable:
during the sixth insertion the lookup finds exactly five same-hash
candidates, which just fits the array). -/
def map6 : Option hmap_map_type := const_map.bind (fun m => run_ops m ops6)

/-- A default-hash one-bucket table after `set([1], [10, 20])` then
`set([1], [9])`: an in-place update that shrinks the value. -/
def map_resized : Option hmap_map_type :=
  (HMAP_create (some default_def_1) true).2.bind
    (fun m => run_ops m [.set [1] [10, 20], .set [1] [9]])

/-- `map_resized` after removing its only key. -/
def map_resized_removed : Option hmap_map_type :=
  map_resized.bind (fun m => run_ops m [.remove [1]])

/-- A definition asking for zero buckets, otherwise valid. -/
def zero_def : HMAP_def_type :=
  { map_size := 0, hash_type := HMAP_HASH_FUNC_SDBM, hash := none
    malloc_present := true, free_present := true }

/-- A placeholder map used only as the default of `Option.getD` below. -/
def dummy_map : hmap_map_type :=
  { buckets := [], data_size := 0, entry_count := 0, key_size := 0, size := 0
    hash := hash_sdbm }

/-- A concrete eight-bucket default-hash table holding the key `[7]` with
value `[1, 2]`. -/
def stored_key_map : hmap_map_type :=
  ((HMAP_create (some default_def_8) true).2.bind
    (fun m => run_ops m [.set [7] [1, 2]])).getD dummy_map

/-- The eight-bucket default-hash table freshly created. -/
def m8 : hmap_map_type := (HMAP_create (some default_def_8) true).2.getD dummy_map

/-- Well-formedness of a table state: every entry's cached hash is the hash of
its key and places it in its bucket, no bucket holds two entries with the
same key, and `entry_count` is the `unsigned int` image of the number of
entries reachable from all buckets. -/
def WF (m : hmap_map_type) : Prop :=
  (∀ (i : Nat) (hi : i < m.buckets.length), ∀ e ∈ m.buckets[i],
      e.key_hash = m.hash e.key ∧ e.key_hash % m.buckets.length = i)
  ∧ (∀ (i : Nat) (hi : i < m.buckets.length),
      ((m.buckets[i]).map hmap_entry_type.key).Nodup)
  ∧ m.entry_count = m.buckets.flatten.length % 2 ^ 32

/-- The spec's end-to-end flavor of operation sequence: `set("a","1")`,
`set("b","2")`, `set("a","3")`, `remove("b")`. -/
def c7_ops : List HMAP_op :=
  [.set [97] [49], .set [98] [50], .set [97] [51], .remove [98]]

/-- The eight-bucket table after running `c7_ops`. -/
def c7_map_final : hmap_map_type := (run_ops m8 c7_ops).getD dummy_map

/-- C1: the claim requires that N same-hash keys round-trip for unbounded N,
the 5-element candidate array never being exceeded.  The code violates this:
on the constant-hash table six distinct keys insert successfully (the sixth
insertion's lookup finds exactly five same-hash candidates, which just fits),
after which every lookup collects six matches and `get_entry_by_hash` writes
the sixth entry pointer past the end of the 5-element `entries` array —
an out-of-bounds write (`none`).  With five keys every query still returns
its correct value. -/
theorem c1_collision_chain_overflows :
    map6.isSome = true
    ∧ map6.bind (fun m => HMAP_get_data (some m) [0]) = none
    ∧ map6.bind (fun m => HMAP_get_data (some m) [5]) = none
    ∧ map5.bind (fun m => HMAP_get_data (some m) [0]) = some (.SUCCESS, some [100])
    ∧ map5.bind (fun m => HMAP_get_data (some m) [4]) = some (.SUCCESS, some [104]) :=
  ⟨rfl, rfl, rfl, rfl, rfl⟩

/-- C2: the claim requires `total_byte_size = table overhead + bucket-array
overhead + Σ byte_size` in every reachable state, with each entry's
`byte_size` kept current.  The code violates this: `HMAP_set_data`'s resize
branch adjusts `map->size` by the length delta but never updates
`entry->size`, so after `set([1],[10,20]); set([1],[9])` the map reports 130
bytes while overhead plus the (stale) entry `byte_size` gives 131 — the
entry's `byte_size` field says 67 although its key, value and fixed overhead
total 66.  Removing the key then subtracts the stale 67, leaving the empty
table at 63 instead of its 64 bytes of overhead. -/
theorem c2_entry_byte_size_stale :
    map_resized.map hmap_map_type.size = some 130
    ∧ map_resized.map totalFromParts = some 131
    ∧ map_resized.map (fun m => m.buckets.flatten.map hmap_entry_type.size) = some [67]
    ∧ map_resized.map (fun m => m.buckets.flatten.map
        (fun e => e.data.length + e.key.length + sizeof_hmap_entry_type)) = some [66]
    ∧ map_resized_removed.map hmap_map_type.size = some 63
    ∧ map_resized_removed.map totalFromParts = some 64
    ∧ (130 : Nat) ≠ 131 ∧ (63 : Nat) ≠ 64 :=
  ⟨rfl, rfl, rfl, rfl, rfl, rfl, by decide, by decide⟩

/-- C3: the claim requires `set(t, k, v)` then `get(t, k)` to succeed with
`v` on every initialized table.  The code violates this through the same
candidate-array overrun: on the (reachable) constant-hash table holding five
same-hash keys, `set([5],[105])` succeeds but the following `get([5])`
collects six same-hash candidates and writes past the 5-element array
(`none`) instead of returning `[105]`.  On an uncrowded table the round trip
does hold, including for zero-length keys and values. -/
theorem c3_roundtrip_set_get_fails :
    map5.bind (fun m => (HMAP_set_data (some m) [5] [105]).map Prod.fst)
      = some .SUCCESS
    ∧ (map5.bind (fun m => run_ops m [.set [5] [105]])).bind
        (fun m => HMAP_get_data (some m) [5]) = none
    ∧ ((HMAP_create (some default_def_8) true).2.bind
        (fun m => run_ops m [.set [] []])).bind
        (fun m => HMAP_get_data (some m) []) = some (.SUCCESS, some [])
    ∧ ((HMAP_create (some default_def_8) true).2.bind
        (fun m => run_ops m [.set [104] [1, 2, 3]])).bind
        (fun m => HMAP_get_data (some m) [104]) = some (.SUCCESS, some [1, 2, 3]) :=
  ⟨rfl, rfl, rfl, rfl⟩

/-- C5: the claim requires `remove` after `set` to succeed (contains false,
count decremented) and absent-key `remove` to be a success no-op on every
initialized table.  The code violates both through the candidate-array
overrun: on the reachable six-same-hash-key table, removing the just-set key
`[5]`, or the absent key `[9]`, overruns the 5-element array (`none`) instead
of returning success.  Below the cap the absent-key remove is a success
no-op, as claimed. -/
theorem c5_remove_overflow :
    map6.isSome = true
    ∧ map6.bind (fun m => HMAP_remove_entry (some m) [5]) = none
    ∧ map6.bind (fun m => HMAP_remove_entry (some m) [9]) = none
    ∧ map5.bind (fun m => (HMAP_remove_entry (some m) [9]).map Prod.fst)
        = some .SUCCESS
    ∧ map5.bind (fun m => (HMAP_remove_entry (some m) [9]).bind Prod.snd) = map5 :=
  ⟨rfl, rfl, rfl, rfl, rfl⟩

/-- C6: `HMAP_create` accepts `map_size = 0` and returns `SUCCESS` without
validating it, and every subsequent lookup or mutation reaches the unguarded
`key_hash % buckets_len` with `buckets_len = 0` in `get_bucket_by_hash`
(division by zero, modelled `none`). -/
theorem c6_zero_buckets_unguarded :
    (HMAP_create (some zero_def) true).1 = .SUCCESS
    ∧ (HMAP_create (some zero_def) true).2.map hmap_map_type.buckets_len = some 0
    ∧ (HMAP_create (some zero_def) true).2.bind
        (fun m => get_bucket_by_hash m 7) = none
    ∧ (HMAP_create (some zero_def) true).2.bind
        (fun m => HMAP_set_data (some m) [1] [2]) = none
    ∧ (HMAP_create (some zero_def) true).2.bind
        (fun m => HMAP_get_data (some m) [1]) = none
    ∧ (HMAP_create (some zero_def) true).2.bind
        (fun m => HMAP_remove_entry (some m) [1]) = none :=
  ⟨rfl, rfl, rfl, rfl, rfl, rfl⟩

/-- C10 (amended): destroying a live table succeeds and nulls the handle's
data pointer; a second destroy, and every other status-returning operation on
a destroyed or never-created handle, reports `MAP_UNINITIALIZED`.
`HMAP_key_in_map`, which returns a boolean rather than a status, reports
false there. -/
theorem c10_destroyed_handle_ops (m : hmap_map_type) (key data : List Nat) :
    HMAP_destroy (some m) = (.SUCCESS, none)
    ∧ HMAP_destroy none = (.MAP_UNINITIALIZED, none)
    ∧ HMAP_get_data none key = some (.MAP_UNINITIALIZED, none)
    ∧ HMAP_set_data none key data = some (.MAP_UNINITIALIZED, none)
    ∧ HMAP_remove_entry none key = some (.MAP_UNINITIALIZED, none)
    ∧ HMAP_get_entry_count none = (.MAP_UNINITIALIZED, none)
    ∧ HMAP_get_size none = (.MAP_UNINITIALIZED, none)
    ∧ HMAP_get_hash none data = (.MAP_UNINITIALIZED, none)
    ∧ HMAP_key_in_map none key = some HMAP_BOOL_FALSE :=
  ⟨rfl, rfl, rfl, rfl, rfl, rfl, rfl, rfl, rfl⟩

/-- C10 counterexample: `HMAP_key_in_map` is an operation of the interface,
but invoked on a never-created handle it reports the `HMAP_bool_t8` byte `0`
(false), not the `MAP_UNINITIALIZED` status byte `4` — so "every other
operation reports Uninitialized" is false as stated. -/
theorem c10_key_in_map_reports_bool_not_status :
    HMAP_key_in_map none [] = some HMAP_BOOL_FALSE
    ∧ HMAP_BOOL_FALSE ≠ statusCode .MAP_UNINITIALIZED
    ∧ statusCode .MAP_UNINITIALIZED = 4 :=
  ⟨rfl, by decide, rfl⟩

/-- One `hash_sdbm` step, cast to `ZMod (2 ^ 32)`, is exactly one step of the
spec's recurrence. -/
theorem sdbm_step_cast (h b : Nat) (hb : b < 256) :
    ((((h <<< 16) + (h <<< 6) - h + b % 256) % 2 ^ 32 : Nat) : ZMod (2 ^ 32))
      = spec_sdbm_step (h : ZMod (2 ^ 32)) b := by
  have hsub : h ≤ h <<< 16 + h <<< 6 := by
    have h1 : h ≤ h * 2 ^ 16 := Nat.le_mul_of_pos_right _ (by norm_num)
    calc h ≤ h * 2 ^ 16 := h1
      _ ≤ h * 2 ^ 16 + h * 2 ^ 6 := Nat.le_add_right _ _
      _ = h <<< 16 + h <<< 6 := by rw [Nat.shiftLeft_eq, Nat.shiftLeft_eq]
  rw [ZMod.natCast_mod, Nat.mod_eq_of_lt hb, Nat.shiftLeft_eq, Nat.shiftLeft_eq]
  rw [Nat.shiftLeft_eq, Nat.shiftLeft_eq] at hsub
  unfold spec_sdbm_step
  push_cast [Nat.cast_sub hsub]
  ring

/-- `hash_sdbm`'s fold, started from any accumulator below `2 ^ 32` and run
over bytes, stays below `2 ^ 32` and agrees with the spec's recurrence in
`ZMod (2 ^ 32)`. -/
theorem sdbm_fold_spec (key : List Nat) (h : Nat) (hh : h < 2 ^ 32)
    (hb : ∀ b ∈ key, b < 256) :
    List.foldl (fun hash b => ((hash <<< 16) + (hash <<< 6) - hash + b % 256) % 2 ^ 32) h key
        < 2 ^ 32
    ∧ ((List.foldl
          (fun hash b => ((hash <<< 16) + (hash <<< 6) - hash + b % 256) % 2 ^ 32) h key
          : Nat) : ZMod (2 ^ 32))
        = List.foldl spec_sdbm_step (h : ZMod (2 ^ 32)) key := by
  induction key generalizing h with
  | nil => exact ⟨hh, rfl⟩
  | cons b bs ih =>
    have hb0 : b < 256 := hb b (by simp)
    have hbs : ∀ x ∈ bs, x < 256 := fun x hx => hb x (by simp [hx])
    have hstep : ((h <<< 16) + (h <<< 6) - h + b % 256) % 2 ^ 32 < 2 ^ 32 :=
      Nat.mod_lt _ (by norm_num)
    obtain ⟨h1, h2⟩ := ih _ hstep hbs
    refine ⟨h1, ?_⟩
    rw [List.foldl_cons, List.foldl_cons, h2, sdbm_step_cast h b hb0]

/-- C8: for every byte string, the default hash `hash_sdbm` equals the value
of the spec's recurrence (`accumulator = (accumulator << 16) +
(accumulator << 6) - accumulator + b`, starting from zero, with wrapping
modulo `2 ^ 32` arithmetic at the native `unsigned int` width), and its value
is a proper `unsigned int`. -/
theorem c8_hash_sdbm_matches_spec (key : List Nat) (hb : ∀ b ∈ key, b < 256) :
    (hash_sdbm key : ZMod (2 ^ 32)) = spec_sdbm key ∧ hash_sdbm key < 2 ^ 32 := by
  have h := sdbm_fold_spec key 0 (by norm_num) hb
  refine ⟨?_, h.1⟩
  have h2 := h.2
  simpa [hash_sdbm, spec_sdbm] using h2

/-- Witness for C8 at the concrete byte string `[104, 105, 33]`. -/
theorem c8_hash_sdbm_matches_spec_witness :
    (hash_sdbm [104, 105, 33] : ZMod (2 ^ 32)) = spec_sdbm [104, 105, 33]
    ∧ hash_sdbm [104, 105, 33] < 2 ^ 32 :=
  c8_hash_sdbm_matches_spec [104, 105, 33] (by decide)

/-- Casting a wraparound addition into `ZMod (2 ^ 32)` gives the plain sum. -/
theorem wadd_cast (x y : Nat) : ((wadd x y : Nat) : ZMod (2 ^ 32)) = x + y := by
  unfold wadd
  rw [ZMod.natCast_mod]
  push_cast
  ring

/-- Casting a wraparound subtraction into `ZMod (2 ^ 32)` gives the plain
difference. -/
theorem wsub_cast (x y : Nat) :
    ((wsub x y : Nat) : ZMod (2 ^ 32)) = (x : ZMod (2 ^ 32)) - y := by
  unfold wsub
  have h1 : y % 2 ^ 32 ≤ 2 ^ 32 := le_of_lt (Nat.mod_lt _ (by norm_num))
  rw [ZMod.natCast_mod, Nat.cast_add, Nat.cast_sub h1, ZMod.natCast_self,
    ZMod.natCast_mod]
  ring

/-- Setting an index back to its present value is the identity. -/
theorem list_set_getD_self {α : Type} (l : List α) (i : Nat) (d : α) :
    l.set i (l.getD i d) = l := by
  induction l generalizing i with
  | nil => rfl
  | cons x xs ih =>
    cases i with
    | zero => rfl
    | succ n => simpa [List.set, List.getD] using ih n

/-- Reading a just-set index (in bounds) gives the written value. -/
theorem list_getD_set_self {α : Type} (l : List α) (i : Nat) (hi : i < l.length)
    (a d : α) : (l.set i a).getD i d = a := by
  rw [List.getD_eq_getElem _ d (by simpa using hi)]
  exact List.getElem_set_self _

/-- `updateFirst` does not change the length. -/
theorem updateFirst_length (p : hmap_entry_type → Bool)
    (f : hmap_entry_type → hmap_entry_type) (l : List hmap_entry_type) :
    (updateFirst p f l).length = l.length := by
  induction l with
  | nil => rfl
  | cons e es ih =>
    by_cases hp : p e <;> simp [updateFirst, hp, ih]

/-- `updateFirst` with a key-preserving function does not change the key
view of the chain. -/
theorem updateFirst_map_key (p : hmap_entry_type → Bool)
    (f : hmap_entry_type → hmap_entry_type)
    (hf : ∀ e, (f e).key = e.key) (l : List hmap_entry_type) :
    (updateFirst p f l).map hmap_entry_type.key = l.map hmap_entry_type.key := by
  induction l with
  | nil => rfl
  | cons e es ih =>
    by_cases hp : p e <;> simp [updateFirst, hp, ih, hf]

/-- Every element of `updateFirst p f l` is an element of `l` or the image
under `f` of an element of `l`. -/
theorem mem_updateFirst (p : hmap_entry_type → Bool)
    (f : hmap_entry_type → hmap_entry_type) (l : List hmap_entry_type)
    (x : hmap_entry_type) (hx : x ∈ updateFirst p f l) :
    x ∈ l ∨ ∃ y ∈ l, x = f y := by
  induction l with
  | nil => simp [updateFirst] at hx
  | cons e es ih =>
    by_cases hp : p e
    · simp only [updateFirst, hp, if_pos] at hx
      rcases List.mem_cons.mp hx with h | h
      · exact Or.inr ⟨e, List.mem_cons_self e es, h⟩
      · exact Or.inl (List.mem_cons_of_mem e h)
    · simp only [updateFirst, hp, if_neg, Bool.false_eq_true,
        not_false_iff] at hx
      rcases List.mem_cons.mp hx with h | h
      · exact Or.inl (h ▸ List.mem_cons_self e es)
      · rcases ih h with h2 | ⟨y, hy, h2⟩
        · exact Or.inl (List.mem_cons_of_mem e h2)
        · exact Or.inr ⟨y, List.mem_cons_of_mem e hy, h2⟩

/-- `filter` commutes with `updateFirst` when `f` preserves the filter and
the update predicate implies it. -/
theorem filter_updateFirst (q p : hmap_entry_type → Bool)
    (f : hmap_entry_type → hmap_entry_type)
    (hqf : ∀ e, q (f e) = q e) (hpq : ∀ e, p e = true → q e = true)
    (l : List hmap_entry_type) :
    (updateFirst p f l).filter q = updateFirst p f (l.filter q) := by
  induction l with
  | nil => rfl
  | cons e es ih =>
    by_cases hp : p e
    · have hq : q e = true := hpq e hp
      simp [updateFirst, hp, List.filter_cons, hq, hqf]
    · by_cases hq : q e
      · simp [updateFirst, hp, List.filter_cons, hq, ih]
      · simp [updateFirst, hp, List.filter_cons, hq, ih]

/-- Finding by `r` in `updateFirst (q && r) f l`, when every element of `l`
satisfies `q` and `f` preserves `r`, is the original find mapped through
`f`. -/
theorem find?_updateFirst (q r : hmap_entry_type → Bool)
    (f : hmap_entry_type → hmap_entry_type)
    (hrf : ∀ e, r (f e) = r e) (l : List hmap_entry_type)
    (hq : ∀ x ∈ l, q x = true) :
    (updateFirst (fun e => q e && r e) f l).find? r = (l.find? r).map f := by
  induction l with
  | nil => rfl
  | cons e es ih =>
    have hqe : q e = true := hq e (List.mem_cons_self e es)
    by_cases hr : r e
    · simp [updateFirst, hqe, hr, List.find?_cons, hrf]
    · have : (q e && r e) = false := by simp [hqe, hr]
      simp only [updateFirst, this, Bool.false_eq_true, if_neg,
        not_false_iff, List.find?_cons]
      simp only [hr, Bool.false_eq_true, if_neg, not_false_iff]
      simpa [List.find?_cons, hr] using
        ih (fun x hx => hq x (List.mem_cons_of_mem e hx))

/-- Dissection of a successful `HMAP_get_data`: the lookup found an entry
whose stored value is the returned copy. -/
theorem get_data_success (t : hmap_map_type) (k v : List Nat)
    (h : HMAP_get_data (some t) k = some (.SUCCESS, some v)) :
    ∃ e, get_entry_by_key t k = some (some e) ∧ e.data = v := by
  cases hk : get_entry_by_key t k with
  | none => rw [HMAP_get_data, hk] at h; simp at h
  | some o =>
    cases o with
    | none => rw [HMAP_get_data, hk] at h; simp at h
    | some e =>
      rw [HMAP_get_data, hk] at h
      simp only [Option.some.injEq, Prod.mk.injEq] at h
      exact ⟨e, rfl, h.2⟩

/-- Dissection of a defined `get_entry_by_key`: nonzero bucket count, the
same-hash candidates fit the array, and the result is the first key match
among them. -/
theorem get_entry_by_key_some (t : hmap_map_type) (k : List Nat)
    (r : Option hmap_entry_type) (h : get_entry_by_key t k = some r) :
    t.buckets_len ≠ 0
    ∧ ((t.buckets.getD (t.hash k % t.buckets_len) []).filter
        (fun e => e.key_hash == t.hash k)).length ≤ MAX_COLLISIONS
    ∧ r = ((t.buckets.getD (t.hash k % t.buckets_len) []).filter
        (fun e => e.key_hash == t.hash k)).find? (fun e => anon_data_match e.key k) := by
  unfold get_entry_by_key get_entry_by_hash get_bucket_by_hash at h
  dsimp only [] at h
  by_cases h0 : t.buckets_len = 0
  · rw [if_pos h0] at h
    exact Option.noConfusion h
  · rw [if_neg h0] at h
    dsimp only [] at h
    by_cases hlen : ((t.buckets.getD (t.hash k % t.buckets_len) []).filter
        (fun e => e.key_hash == t.hash k)).length ≤ MAX_COLLISIONS
    · rw [if_pos hlen] at h
      exact ⟨h0, hlen, (Option.some.inj h).symm⟩
    · rw [if_neg hlen] at h
      exact Option.noConfusion h

/-- Converse dissection: assemble a defined `get_entry_by_key` result from
its parts. -/
theorem get_entry_by_key_build (m : hmap_map_type) (k : List Nat)
    (res : Option hmap_entry_type) (h0 : m.buckets_len ≠ 0)
    (hlen : ((m.buckets.getD (m.hash k % m.buckets_len) []).filter
        (fun e => e.key_hash == m.hash k)).length ≤ MAX_COLLISIONS)
    (hfind : ((m.buckets.getD (m.hash k % m.buckets_len) []).filter
        (fun e => e.key_hash == m.hash k)).find?
        (fun e => anon_data_match e.key k) = res) :
    get_entry_by_key m k = some res := by
  unfold get_entry_by_key get_entry_by_hash get_bucket_by_hash
  dsimp only []
  rw [if_neg h0]
  dsimp only []
  rw [if_pos hlen]
  dsimp only []
  rw [hfind]

/-- The key view of a mapped bucket array at an index. -/
theorem getD_map_key (l : List (List hmap_entry_type)) (i : Nat) :
    (l.map (List.map hmap_entry_type.key)).getD i []
      = List.map hmap_entry_type.key (l.getD i []) :=
  List.getD_map l [] _

/-- `get_entry_by_key_build` restated over a map given by its fields, so the
hypotheses carry no record projections. -/
theorem get_entry_by_key_fields (B : List (List hmap_entry_type))
    (ds ec ks sz : Nat) (hf : List Nat → Nat) (k : List Nat)
    (res : Option hmap_entry_type) (h0 : B.length ≠ 0)
    (hlen : ((B.getD (hf k % B.length) []).filter
        (fun x => x.key_hash == hf k)).length ≤ MAX_COLLISIONS)
    (hfind : ((B.getD (hf k % B.length) []).filter
        (fun x => x.key_hash == hf k)).find?
        (fun x => anon_data_match x.key k) = res) :
    get_entry_by_key ⟨B, ds, ec, ks, sz, hf⟩ k = some res :=
  get_entry_by_key_build ⟨B, ds, ec, ks, sz, hf⟩ k res h0 hlen hfind

/-- Below the collision cap — whenever the lookup of `k` is defined and
succeeds — updating an existing key with a value of a different length keeps
the success status, changes `size` (total_size) by exactly the length delta
in `unsigned int` arithmetic, makes a subsequent get return the new value,
and leaves the stored keys, the `key_size` total and the entry count
untouched. -/
theorem set_update_changes_size_below_cap (t : hmap_map_type) (k v1 v2 : List Nat)
    (h1 : HMAP_get_data (some t) k = some (.SUCCESS, some v1))
    (h2 : v1.length ≠ v2.length) :
    ∃ t2, HMAP_set_data (some t) k v2 = some (.SUCCESS, some t2)
      ∧ (t2.size : ZMod (2 ^ 32)) = (t.size : ZMod (2 ^ 32)) + v2.length - v1.length
      ∧ HMAP_get_data (some t2) k = some (.SUCCESS, some v2)
      ∧ t2.buckets.map (List.map hmap_entry_type.key)
          = t.buckets.map (List.map hmap_entry_type.key)
      ∧ t2.key_size = t.key_size
      ∧ t2.entry_count = t.entry_count := by
  obtain ⟨e, hk, he⟩ := get_data_success t k v1 h1
  obtain ⟨h0, hlen, hfind⟩ := get_entry_by_key_some t k (some e) hk
  simp only [hmap_map_type.buckets_len] at h0 hlen hfind
  have hcond : e.data.length ≠ v2.length := by rw [he]; exact h2
  have hi : t.hash k % t.buckets.length < t.buckets.length :=
    Nat.mod_lt _ (Nat.pos_of_ne_zero h0)
  refine ⟨{ t with
      buckets := t.buckets.set (t.hash k % t.buckets.length)
        (updateFirst (fun x => x.key_hash == t.hash k && anon_data_match x.key k)
          (fun x => { x with data := v2 })
          (t.buckets.getD (t.hash k % t.buckets.length) []))
      data_size := wsub (wadd t.data_size v2.length) e.data.length
      size := wsub (wadd t.size v2.length) e.data.length }, ?_, ?_, ?_, ?_, ?_, ?_⟩
  · unfold HMAP_set_data
    dsimp only []
    rw [hk]
    dsimp only []
    rw [if_pos hcond]
    rfl
  · show ((wsub (wadd t.size v2.length) e.data.length : Nat) : ZMod (2 ^ 32)) = _
    rw [wsub_cast, wadd_cast, he]
  · have hkey2 : get_entry_by_key
        { t with
          buckets := t.buckets.set (t.hash k % t.buckets.length)
            (updateFirst (fun x => x.key_hash == t.hash k && anon_data_match x.key k)
              (fun x => { x with data := v2 })
              (t.buckets.getD (t.hash k % t.buckets.length) []))
          data_size := wsub (wadd t.data_size v2.length) e.data.length
          size := wsub (wadd t.size v2.length) e.data.length } k
        = some (some { e with data := v2 }) := by
      refine get_entry_by_key_fields _ _ _ _ _ _ _ _ ?_ ?_ ?_
      · rw [List.length_set]
        exact h0
      · rw [List.length_set, list_getD_set_self _ _ hi]
        rw [filter_updateFirst (fun x => x.key_hash == t.hash k)
          (fun x => x.key_hash == t.hash k && anon_data_match x.key k)
          (fun x => { x with data := v2 }) (fun x => rfl)
          (fun x hx => by rw [Bool.and_eq_true] at hx; exact hx.1)]
        rw [updateFirst_length]
        exact hlen
      · rw [List.length_set, list_getD_set_self _ _ hi]
        rw [filter_updateFirst (fun x => x.key_hash == t.hash k)
          (fun x => x.key_hash == t.hash k && anon_data_match x.key k)
          (fun x => { x with data := v2 }) (fun x => rfl)
          (fun x hx => by rw [Bool.and_eq_true] at hx; exact hx.1)]
        rw [find?_updateFirst (fun x => x.key_hash == t.hash k)
          (fun x => anon_data_match x.key k)
          (fun x => { x with data := v2 }) (fun x => rfl) _
          (fun x hx => (List.mem_filter.mp hx).2)]
        rw [← hfind]
        rfl
    unfold HMAP_get_data
    dsimp only []
    rw [hkey2]
  · show (t.buckets.set _ _).map (List.map hmap_entry_type.key)
        = t.buckets.map (List.map hmap_entry_type.key)
    rw [List.map_set]
    rw [updateFirst_map_key
      (fun x => x.key_hash == t.hash k && anon_data_match x.key k)
      (fun x => { x with data := v2 }) (fun x => rfl)]
    rw [← getD_map_key]
    exact list_set_getD_self _ _ _
  · rfl
  · rfl

/-- The below-cap update theorem at a concrete input: the table `stored_key_map`
at key `[7]`, old value `[1, 2]`, new value `[5]`. -/
theorem set_update_changes_size_below_cap_concrete :
    ∃ t2, HMAP_set_data (some stored_key_map) [7] [5] = some (.SUCCESS, some t2)
      ∧ (t2.size : ZMod (2 ^ 32)) = (stored_key_map.size : ZMod (2 ^ 32))
          + (([5] : List Nat).length : ZMod (2 ^ 32))
          - (([1, 2] : List Nat).length : ZMod (2 ^ 32))
      ∧ HMAP_get_data (some t2) [7] = some (.SUCCESS, some [5])
      ∧ t2.buckets.map (List.map hmap_entry_type.key)
          = stored_key_map.buckets.map (List.map hmap_entry_type.key)
      ∧ t2.key_size = stored_key_map.key_size
      ∧ t2.entry_count = stored_key_map.entry_count :=
  set_update_changes_size_below_cap stored_key_map [7] [1, 2] [5] (by rfl) (by decide)

/-- C9 (amended): `HMAP_create` reports `INVALID_ARG` exactly when the
definition or out-object pointer is missing, and `INVALID_DEF` exactly when
(given those pointers) an allocator hook is absent or the custom hash type is
selected without a function.  Whenever a map is produced, the status is
`SUCCESS`, all buckets are empty, `entry_count` and the key/value byte totals
are zero, and the total size equals the fixed table overhead plus the
bucket-array overhead (it is not zero). -/
theorem c9_create_characterization (d : Option HMAP_def_type) (b : Bool) :
    ((HMAP_create d b).1 = .INVALID_ARG ↔ (d = none ∨ b = false))
    ∧ ((HMAP_create d b).1 = .INVALID_DEF ↔ (∃ dd, d = some dd ∧ b = true
        ∧ (dd.malloc_present = false ∨ dd.free_present = false
          ∨ (dd.hash_type = HMAP_HASH_FUNC_CUSTOM ∧ dd.hash = none))))
    ∧ (∀ m, (HMAP_create d b).2 = some m →
        (HMAP_create d b).1 = .SUCCESS
        ∧ (∀ bkt ∈ m.buckets, bkt = [])
        ∧ m.entry_count = 0 ∧ m.data_size = 0 ∧ m.key_size = 0
        ∧ m.size = (sizeof_hmap_map_type
            + sizeof_bucket_pointer * m.buckets.length) % 2 ^ 32) := by
  rcases d with _ | dd
  · refine ⟨by simp [HMAP_create], by simp [HMAP_create], ?_⟩
    intro m hm
    simp [HMAP_create] at hm
  · cases b with
    | false =>
      refine ⟨by simp [HMAP_create], by simp [HMAP_create], ?_⟩
      intro m hm
      simp [HMAP_create] at hm
    | true =>
      by_cases hmal : dd.malloc_present = true
      case neg =>
        rw [Bool.not_eq_true] at hmal
        have hc : HMAP_create (some dd) true = (.INVALID_DEF, none) := by
          simp [HMAP_create, hmal]
        rw [hc]
        refine ⟨by simp, ?_, by intro m hm; simp at hm⟩
        constructor
        · intro _
          exact ⟨dd, rfl, rfl, Or.inl hmal⟩
        · intro _
          rfl
      case pos =>
      by_cases hfre : dd.free_present = true
      case neg =>
        rw [Bool.not_eq_true] at hfre
        have hc : HMAP_create (some dd) true = (.INVALID_DEF, none) := by
          simp [HMAP_create, hfre]
        rw [hc]
        refine ⟨by simp, ?_, by intro m hm; simp at hm⟩
        constructor
        · intro _
          exact ⟨dd, rfl, rfl, Or.inr (Or.inl hfre)⟩
        · intro _
          rfl
      case pos =>
      by_cases hty : dd.hash_type = HMAP_HASH_FUNC_CUSTOM
      · cases hh : dd.hash with
        | none =>
          have hc : HMAP_create (some dd) true = (.INVALID_DEF, none) := by
            simp [HMAP_create, hmal, hfre, hty, hh]
          rw [hc]
          refine ⟨by simp, ?_, by intro m hm; simp at hm⟩
          constructor
          · intro _
            exact ⟨dd, rfl, rfl, Or.inr (Or.inr ⟨hty, hh⟩)⟩
          · intro _
            rfl
        | some f =>
          have hc : HMAP_create (some dd) true = (.SUCCESS, some
              { buckets := List.replicate dd.map_size []
                data_size := 0
                entry_count := 0
                key_size := 0
                size := (sizeof_hmap_map_type
                  + sizeof_bucket_pointer * dd.map_size) % 2 ^ 32
                hash := fun bl => f bl % 2 ^ 32 }) := by
            simp [HMAP_create, hmal, hfre, hty, hh]
          rw [hc]
          refine ⟨by simp, ?_, ?_⟩
          · simp only [hmal, hfre, hh]
            constructor
            · intro habs
              exact absurd habs (by simp)
            · rintro ⟨dd2, hdd2, -, h3⟩
              rcases Option.some.inj hdd2 with rfl
              rcases h3 with h3 | h3 | ⟨-, h3⟩ <;> simp_all
          · rintro m hm
            rcases Option.some.inj hm with rfl
            refine ⟨rfl, ?_, rfl, rfl, rfl, ?_⟩
            · intro bkt hbkt
              exact List.eq_of_mem_replicate hbkt
            · simp [List.length_replicate]
      · have hc : HMAP_create (some dd) true = (.SUCCESS, some
            { buckets := List.replicate dd.map_size []
              data_size := 0
              entry_count := 0
              key_size := 0
              size := (sizeof_hmap_map_type
                + sizeof_bucket_pointer * dd.map_size) % 2 ^ 32
              hash := hash_sdbm }) := by
          simp [HMAP_create, hmal, hfre, hty]
        rw [hc]
        refine ⟨by simp, ?_, ?_⟩
        · constructor
          · intro habs
            exact absurd habs (by simp)
          · rintro ⟨dd2, hdd2, -, h3⟩
            rcases Option.some.inj hdd2 with rfl
            rcases h3 with h3 | h3 | ⟨h3, -⟩ <;> simp_all
        · rintro m hm
          rcases Option.some.inj hm with rfl
          refine ⟨rfl, ?_, rfl, rfl, rfl, ?_⟩
          · intro bkt hbkt
            exact List.eq_of_mem_replicate hbkt
          · simp [List.length_replicate]

/-- C9 counterexample: on a successful creation with one bucket the
`total_byte_size` aggregate is 64 (table plus bucket-array overhead), not
zero — so "all aggregates are zeroed" is false as stated. -/
theorem c9_success_size_not_zero :
    (HMAP_create (some default_def_1) true).1 = .SUCCESS
    ∧ (HMAP_create (some default_def_1) true).2.map hmap_map_type.size = some 64
    ∧ (64 : Nat) ≠ 0 :=
  ⟨rfl, rfl, by decide⟩

/-- Witness for C9 at concrete inputs: a missing definition is rejected as
`INVALID_ARG`, and the concrete successful creation `m8` has zero counters
and overhead-only size. -/
theorem c9_create_characterization_witness :
    (HMAP_create none true).1 = .INVALID_ARG
    ∧ (HMAP_create (some default_def_8) true).1 = .SUCCESS
    ∧ m8.entry_count = 0 ∧ m8.data_size = 0 ∧ m8.key_size = 0
    ∧ m8.size = (sizeof_hmap_map_type
        + sizeof_bucket_pointer * m8.buckets.length) % 2 ^ 32 := by
  have h1 := (c9_create_characterization none true).1
  have h3 := ((c9_create_characterization (some default_def_8) true).2.2) m8 (by rfl)
  exact ⟨h1.mpr (Or.inl rfl), h3.1, h3.2.2.1, h3.2.2.2.1, h3.2.2.2.2.1,
    h3.2.2.2.2.2⟩

/-- Replacing one bucket changes the flattened length by the length delta of
that bucket (stated additively). -/
theorem flatten_length_set {α : Type} (l : List (List α)) (i : Nat)
    (hi : i < l.length) (b : List α) :
    ((l.set i b).flatten).length + (l.getD i []).length
      = l.flatten.length + b.length := by
  induction l generalizing i with
  | nil => simp at hi
  | cons x xs ih =>
    cases i with
    | zero =>
      simp [List.flatten_cons, List.getD_cons_zero]
      omega
    | succ n =>
      have hn : n < xs.length := by simpa using hi
      have := ih n hn
      simp only [List.set_cons_succ, List.flatten_cons, List.length_append,
        List.getD_cons_succ]
      omega

/-- `eraseFirst` yields a sublist. -/
theorem eraseFirst_sublist (p : hmap_entry_type → Bool)
    (l : List hmap_entry_type) : (eraseFirst p l).Sublist l := by
  induction l with
  | nil => exact List.Sublist.refl _
  | cons e es ih =>
    by_cases hp : p e
    · simp only [eraseFirst, hp, if_pos]
      exact (List.Sublist.refl es).cons e
    · simp only [eraseFirst, hp, Bool.false_eq_true, if_neg, not_false_iff]
      exact ih.cons₂ e

/-- When some element satisfies `p`, `eraseFirst` removes exactly one
element. -/
theorem eraseFirst_length_of_mem (p : hmap_entry_type → Bool)
    (l : List hmap_entry_type) (hx : ∃ x ∈ l, p x = true) :
    (eraseFirst p l).length + 1 = l.length := by
  induction l with
  | nil => simp at hx
  | cons e es ih =>
    by_cases hp : p e
    · simp [eraseFirst, hp]
    · obtain ⟨x, hxm, hxp⟩ := hx
      rcases List.mem_cons.mp hxm with rfl | hxm
      · exact absurd hxp hp
      · simp only [eraseFirst, hp, Bool.false_eq_true, if_neg, not_false_iff,
          List.length_cons]
        rw [← ih ⟨x, hxm, hxp⟩]

/-- Updating the value of one entry in one bucket (what `HMAP_set_data` does
on an existing key) preserves well-formedness, whatever the new byte totals
are. -/
theorem WF_update_branch (m : hmap_map_type) (i : Nat) (hi : i < m.buckets.length)
    (p : hmap_entry_type → Bool) (v : List Nat) (d2 s2 : Nat) (hwf : WF m) :
    WF { m with
        buckets := m.buckets.set i
          (updateFirst p (fun x => { x with data := v }) (m.buckets.getD i []))
        data_size := d2
        size := s2 } := by
  obtain ⟨hcoh, hnodup, hcount⟩ := hwf
  have hlen : (m.buckets.set i
      (updateFirst p (fun x => { x with data := v }) (m.buckets.getD i []))).length
      = m.buckets.length := List.length_set m.buckets _ _
  refine ⟨?_, ?_, ?_⟩
  · intro j hj e he
    simp only [] at hj he ⊢
    rw [hlen] at hj
    by_cases hij : i = j
    · subst hij
      rw [List.getElem_set_self (by rwa [List.length_set] at *)] at he
      rcases mem_updateFirst _ _ _ _ he with hmem | ⟨y, hy, rfl⟩
      · have := hcoh i hi e (by rwa [List.getD_eq_getElem m.buckets [] hi] at hmem)
        simpa [hlen] using this
      · have := hcoh i hi y (by rwa [List.getD_eq_getElem m.buckets [] hi] at hy)
        simpa [hlen] using this
    · rw [List.getElem_set_ne hij] at he
      have := hcoh j hj e he
      simpa [hlen] using this
  · intro j hj
    simp only [] at hj ⊢
    rw [hlen] at hj
    by_cases hij : i = j
    · subst hij
      rw [List.getElem_set_self (by rwa [List.length_set] at *)]
      rw [updateFirst_map_key p (fun x => { x with data := v }) (fun x => rfl)]
      rw [List.getD_eq_getElem m.buckets [] hi]
      exact hnodup i hi
    · rw [List.getElem_set_ne hij]
      exact hnodup j hj
  · simp only []
    have hadd := flatten_length_set m.buckets i hi
      (updateFirst p (fun x => { x with data := v }) (m.buckets.getD i []))
    rw [updateFirst_length] at hadd
    have : (m.buckets.set i
        (updateFirst p (fun x => { x with data := v })
          (m.buckets.getD i []))).flatten.length = m.buckets.flatten.length := by
      omega
    rw [this]
    exact hcount

/-- Pushing a fresh entry (whose key is absent from its bucket) to the head
of its bucket, with the aggregate updates of `create_entry`, preserves
well-formedness. -/
theorem WF_insert_branch (m : hmap_map_type) (k v : List Nat) (hwf : WF m)
    (h0 : m.buckets.length ≠ 0)
    (hnodup : ∀ x ∈ m.buckets.getD (m.hash k % m.buckets.length) [], x.key ≠ k) :
    WF { m with
        buckets := m.buckets.set (m.hash k % m.buckets.length)
          ({ data := v, key := k, key_hash := m.hash k
             size := (v.length + k.length + sizeof_hmap_entry_type) % 2 ^ 32 }
            :: m.buckets.getD (m.hash k % m.buckets.length) [])
        data_size := wadd m.data_size v.length
        entry_count := wadd m.entry_count 1
        key_size := wadd m.key_size k.length
        size := wadd m.size ((v.length + k.length + sizeof_hmap_entry_type) % 2 ^ 32) } := by
  obtain ⟨hcoh, hnd, hcount⟩ := hwf
  have hi : m.hash k % m.buckets.length < m.buckets.length :=
    Nat.mod_lt _ (Nat.pos_of_ne_zero h0)
  have hlen : (m.buckets.set (m.hash k % m.buckets.length)
      ({ data := v, key := k, key_hash := m.hash k
         size := (v.length + k.length + sizeof_hmap_entry_type) % 2 ^ 32 }
        :: m.buckets.getD (m.hash k % m.buckets.length) [])).length
      = m.buckets.length := List.length_set m.buckets _ _
  refine ⟨?_, ?_, ?_⟩
  · intro j hj e he
    simp only [] at hj he ⊢
    rw [hlen] at hj
    by_cases hij : m.hash k % m.buckets.length = j
    · subst hij
      rw [List.getElem_set_self (by rwa [List.length_set] at *)] at he
      rcases List.mem_cons.mp he with rfl | he
      · exact ⟨rfl, by rw [hlen]⟩
      · have := hcoh _ hi e (by rwa [List.getD_eq_getElem m.buckets [] hi] at he)
        simpa [hlen] using this
    · rw [List.getElem_set_ne hij] at he
      have := hcoh j hj e he
      simpa [hlen] using this
  · intro j hj
    simp only [] at hj ⊢
    rw [hlen] at hj
    by_cases hij : m.hash k % m.buckets.length = j
    · subst hij
      rw [List.getElem_set_self (by rwa [List.length_set] at *)]
      simp only [List.map_cons]
      refine List.Nodup.cons ?_ ?_
      · intro hkmem
        obtain ⟨x, hx, hxk⟩ := List.mem_map.mp hkmem
        exact hnodup x hx hxk
      · rw [List.getD_eq_getElem m.buckets [] hi]
        exact hnd _ hi
    · rw [List.getElem_set_ne hij]
      exact hnd j hj
  · simp only []
    have hadd := flatten_length_set m.buckets (m.hash k % m.buckets.length) hi
      ({ data := v, key := k, key_hash := m.hash k
         size := (v.length + k.length + sizeof_hmap_entry_type) % 2 ^ 32 }
        :: m.buckets.getD (m.hash k % m.buckets.length) [])
    have hflat : (m.buckets.set (m.hash k % m.buckets.length)
        ({ data := v, key := k, key_hash := m.hash k
           size := (v.length + k.length + sizeof_hmap_entry_type) % 2 ^ 32 }
          :: m.buckets.getD (m.hash k % m.buckets.length) [])).flatten.length
        = m.buckets.flatten.length + 1 := by
      simp only [List.length_cons] at hadd
      omega
    rw [hflat, hcount]
    unfold wadd
    rw [Nat.mod_add_mod]

/-- Decrementing a wrapped count by one, below the wraparound. -/
theorem wsub_one_mod (J : Nat) (hJ : 1 ≤ J) :
    wsub (J % 2 ^ 32) 1 = (J - 1) % 2 ^ 32 := by
  unfold wsub
  rw [Nat.mod_add_mod]
  have h1 : (1 : Nat) % 2 ^ 32 = 1 := by norm_num
  rw [h1]
  have h2 : J + (2 ^ 32 - 1) = (J - 1) + 2 ^ 32 := by omega
  rw [h2, Nat.add_mod_right]

/-- Unlinking the matching entry from its bucket and rolling its footprint
out of the aggregates (what `HMAP_remove_entry` does on a present key)
preserves well-formedness. -/
theorem WF_remove_branch (m : hmap_map_type) (k : List Nat)
    (e : hmap_entry_type) (hwf : WF m) (h0 : m.buckets.length ≠ 0)
    (hmem : ∃ x ∈ m.buckets.getD (e.key_hash % m.buckets.length) [],
        (x.key_hash == e.key_hash && anon_data_match x.key k) = true) :
    WF (destroy_entry
      { m with
        buckets := m.buckets.set (e.key_hash % m.buckets.length)
          (eraseFirst (fun x => x.key_hash == e.key_hash && anon_data_match x.key k)
            (m.buckets.getD (e.key_hash % m.buckets.length) [])) } e) := by
  obtain ⟨hcoh, hnd, hcount⟩ := hwf
  have hi : e.key_hash % m.buckets.length < m.buckets.length :=
    Nat.mod_lt _ (Nat.pos_of_ne_zero h0)
  have hlen : (m.buckets.set (e.key_hash % m.buckets.length)
      (eraseFirst (fun x => x.key_hash == e.key_hash && anon_data_match x.key k)
        (m.buckets.getD (e.key_hash % m.buckets.length) []))).length
      = m.buckets.length := List.length_set m.buckets _ _
  unfold destroy_entry
  refine ⟨?_, ?_, ?_⟩
  · intro j hj x hx
    simp only [] at hj hx ⊢
    rw [hlen] at hj
    by_cases hij : e.key_hash % m.buckets.length = j
    · subst hij
      rw [List.getElem_set_self (by rwa [List.length_set] at *)] at hx
      have hx2 : x ∈ m.buckets.getD (e.key_hash % m.buckets.length) [] :=
        (eraseFirst_sublist _ _).subset hx
      have := hcoh _ hi x (by rwa [List.getD_eq_getElem m.buckets [] hi] at hx2)
      simpa [hlen] using this
    · rw [List.getElem_set_ne hij] at hx
      have := hcoh j hj x hx
      simpa [hlen] using this
  · intro j hj
    simp only [] at hj ⊢
    rw [hlen] at hj
    by_cases hij : e.key_hash % m.buckets.length = j
    · subst hij
      rw [List.getElem_set_self (by rwa [List.length_set] at *)]
      have hsub : (eraseFirst
          (fun x => x.key_hash == e.key_hash && anon_data_match x.key k)
          (m.buckets.getD (e.key_hash % m.buckets.length) [])).map
            hmap_entry_type.key
          |>.Sublist ((m.buckets.getD (e.key_hash % m.buckets.length) []).map
            hmap_entry_type.key) :=
        (eraseFirst_sublist _ _).map _
      refine List.Nodup.sublist hsub ?_
      rw [List.getD_eq_getElem m.buckets [] hi]
      exact hnd _ hi
    · rw [List.getElem_set_ne hij]
      exact hnd j hj
  · simp only []
    have hadd := flatten_length_set m.buckets (e.key_hash % m.buckets.length) hi
      (eraseFirst (fun x => x.key_hash == e.key_hash && anon_data_match x.key k)
        (m.buckets.getD (e.key_hash % m.buckets.length) []))
    have herase := eraseFirst_length_of_mem
      (fun x => x.key_hash == e.key_hash && anon_data_match x.key k)
      (m.buckets.getD (e.key_hash % m.buckets.length) []) hmem
    have hflat : (m.buckets.set (e.key_hash % m.buckets.length)
        (eraseFirst (fun x => x.key_hash == e.key_hash && anon_data_match x.key k)
          (m.buckets.getD (e.key_hash % m.buckets.length) []))).flatten.length + 1
        = m.buckets.flatten.length := by omega
    rw [hcount, wsub_one_mod _ (by omega)]
    have h3 : m.buckets.flatten.length - 1
        = (m.buckets.set (e.key_hash % m.buckets.length)
          (eraseFirst (fun x => x.key_hash == e.key_hash && anon_data_match x.key k)
            (m.buckets.getD (e.key_hash % m.buckets.length) []))).flatten.length := by
      omega
    rw [h3]

/-- A table whose buckets are all empty and whose count is zero is
well-formed. -/
theorem WF_fresh (n sz : Nat) (f : List Nat → Nat) :
    WF { buckets := List.replicate n [], data_size := 0, entry_count := 0
         key_size := 0, size := sz, hash := f } := by
  refine ⟨?_, ?_, ?_⟩
  · intro i hi e he
    simp only [] at he
    rw [List.getElem_replicate] at he
    simp at he
  · intro i hi
    simp only []
    rw [List.getElem_replicate]
    simp
  · simp only []
    have hz : (List.replicate n ([] : List hmap_entry_type)).flatten.length = 0 := by
      induction n with
      | zero => rfl
      | succ n2 ih =>
        rw [List.replicate_succ, List.flatten_cons]
        exact ih
    simp [hz]

/-- Any map handed out by a successful `HMAP_create` is well-formed. -/
theorem WF_create (d : Option HMAP_def_type) (b : Bool) (m : hmap_map_type)
    (h : (HMAP_create d b).2 = some m) : WF m := by
  rcases d with _ | dd
  · simp [HMAP_create] at h
  · cases b with
    | false => simp [HMAP_create] at h
    | true =>
      by_cases hmal : dd.malloc_present = true
      case neg =>
        rw [Bool.not_eq_true] at hmal
        simp [HMAP_create, hmal] at h
      case pos =>
      by_cases hfre : dd.free_present = true
      case neg =>
        rw [Bool.not_eq_true] at hfre
        simp [HMAP_create, hfre] at h
      case pos =>
      by_cases hty : dd.hash_type = HMAP_HASH_FUNC_CUSTOM
      · cases hh : dd.hash with
        | none => simp [HMAP_create, hmal, hfre, hty, hh] at h
        | some f =>
          simp only [HMAP_create, hmal, hfre, hty, hh] at h
          rw [if_neg (by simp)] at h
          rw [← Option.some.inj h]
          exact WF_fresh dd.map_size _ _
      · simp only [HMAP_create, hmal, hfre, hty] at h
        rw [if_neg (by simp)] at h
        rw [← Option.some.inj h]
        exact WF_fresh dd.map_size _ _

/-- One defined `set` or `remove` step preserves well-formedness. -/
theorem WF_run_op (m m2 : hmap_map_type) (op : HMAP_op) (hwf : WF m)
    (h : run_op m op = some m2) : WF m2 := by
  cases op with
  | set k v =>
    unfold run_op HMAP_set_data at h
    dsimp only [] at h
    cases hk : get_entry_by_key m k with
    | none =>
      rw [hk] at h
      exact Option.noConfusion h
    | some o =>
      obtain ⟨h0, hlen, hfind⟩ := get_entry_by_key_some m k o hk
      simp only [hmap_map_type.buckets_len] at h0 hlen hfind
      cases o with
      | some e =>
        rw [hk] at h
        dsimp only [] at h
        by_cases hc : e.data.length ≠ v.length
        · rw [if_pos hc] at h
          obtain rfl := Option.some.inj h
          exact WF_update_branch m (m.hash k % m.buckets_len)
            (Nat.mod_lt _ (Nat.pos_of_ne_zero h0))
            (fun x => x.key_hash == m.hash k && anon_data_match x.key k) v _ _ hwf
        · rw [if_neg hc] at h
          obtain rfl := Option.some.inj h
          exact WF_update_branch m (m.hash k % m.buckets_len)
            (Nat.mod_lt _ (Nat.pos_of_ne_zero h0))
            (fun x => x.key_hash == m.hash k && anon_data_match x.key k) v _ _ hwf
      | none =>
        rw [hk] at h
        dsimp only [] at h
        obtain rfl := Option.some.inj h
        have hnodup2 : ∀ x ∈ m.buckets.getD (m.hash k % m.buckets.length) [],
            x.key ≠ k := by
          intro x hx hxk
          have hxcoh := (hwf.1 (m.hash k % m.buckets.length)
            (Nat.mod_lt _ (Nat.pos_of_ne_zero h0)) x
            (by rwa [List.getD_eq_getElem m.buckets []
              (Nat.mod_lt _ (Nat.pos_of_ne_zero h0))] at hx)).1
          have hxf : x ∈ (m.buckets.getD (m.hash k % m.buckets.length) []).filter
              (fun y => y.key_hash == m.hash k) := by
            refine List.mem_filter.mpr ⟨hx, ?_⟩
            rw [hxcoh, hxk]
            exact beq_self_eq_true _
          have hnone := List.find?_eq_none.mp hfind.symm x hxf
          apply hnone
          show anon_data_match x.key k = true
          unfold anon_data_match
          rw [hxk]
          exact beq_self_eq_true _
        exact WF_insert_branch m k v hwf h0 hnodup2
  | remove k =>
    unfold run_op HMAP_remove_entry at h
    dsimp only [] at h
    cases hk : get_entry_by_key m k with
    | none =>
      rw [hk] at h
      exact Option.noConfusion h
    | some o =>
      obtain ⟨h0, hlen, hfind⟩ := get_entry_by_key_some m k o hk
      simp only [hmap_map_type.buckets_len] at h0 hlen hfind
      cases o with
      | none =>
        rw [hk] at h
        dsimp only [] at h
        obtain rfl := Option.some.inj h
        exact hwf
      | some e =>
        rw [hk] at h
        dsimp only [] at h
        obtain rfl := Option.some.inj h
        have hef : e ∈ (m.buckets.getD (m.hash k % m.buckets.length) []).filter
            (fun y => y.key_hash == m.hash k) := List.mem_of_find?_eq_some hfind.symm
        have hekey : anon_data_match e.key k = true := by
          have h2 := List.find?_some hfind.symm
          exact h2
        have hhash : e.key_hash = m.hash k := by
          have h2 := (List.mem_filter.mp hef).2
          simpa using h2
        have hememb : e ∈ m.buckets.getD (e.key_hash % m.buckets.length) [] := by
          rw [hhash]
          exact (List.mem_filter.mp hef).1
        have hmem2 : ∃ x ∈ m.buckets.getD (e.key_hash % m.buckets.length) [],
            (x.key_hash == e.key_hash && anon_data_match x.key k) = true := by
          refine ⟨e, hememb, ?_⟩
          rw [Bool.and_eq_true]
          exact ⟨beq_self_eq_true _, hekey⟩
        exact WF_remove_branch m k e hwf h0 hmem2

/-- A defined sequence of `set`/`remove` calls preserves well-formedness. -/
theorem WF_run_ops (m : hmap_map_type) (ops : List HMAP_op) (m2 : hmap_map_type)
    (hwf : WF m) (h : run_ops m ops = some m2) : WF m2 := by
  induction ops generalizing m with
  | nil =>
    unfold run_ops at h
    rw [← Option.some.inj h]
    exact hwf
  | cons op ops2 ih =>
    unfold run_ops at h
    cases ho : run_op m op with
    | none =>
      rw [ho] at h
      exact Option.noConfusion h
    | some mm =>
      rw [ho] at h
      dsimp only [] at h
      exact ih mm (WF_run_op m mm op hwf ho) h

/-- In a well-formed table no two entries anywhere share a key: the key view
of the flattened buckets has no duplicates. -/
theorem WF_flatten_nodup (m : hmap_map_type) (hwf : WF m) :
    (m.buckets.flatten.map hmap_entry_type.key).Nodup := by
  obtain ⟨hcoh, hnd, -⟩ := hwf
  rw [List.map_flatten]
  rw [List.nodup_flatten]
  constructor
  · intro l hl
    obtain ⟨bkt, hbkt, rfl⟩ := List.mem_map.mp hl
    obtain ⟨i, hi, rfl⟩ := List.mem_iff_getElem.mp hbkt
    exact hnd i hi
  · rw [List.pairwise_iff_getElem]
    intro i j hi hj hij
    rw [List.length_map] at hi hj
    intro a hai haj
    rw [List.getElem_map] at hai haj
    obtain ⟨x, hx, hxk⟩ := List.mem_map.mp hai
    obtain ⟨y, hy, hyk⟩ := List.mem_map.mp haj
    have hxc := hcoh i hi x hx
    have hyc := hcoh j hj y hy
    have hhash : m.hash x.key = m.hash y.key := by rw [hxk, hyk]
    have hii : i = j := by
      rw [← hxc.2, ← hyc.2, hxc.1, hyc.1, hhash]
    omega

/-- C7: for every table reachable by a defined sequence of `set`/`remove`
calls from a freshly created table, `entry_count` is the `unsigned int`
image of the number of entries reachable from all buckets, no two reachable
entries share a key, and hence `entry_count` is the image of the number of
distinct stored keys. -/
theorem c7_entry_count_matches_stored_keys (d : Option HMAP_def_type)
    (b : Bool) (m0 : hmap_map_type) (h0 : (HMAP_create d b).2 = some m0)
    (ops : List HMAP_op) (m : hmap_map_type) (h : run_ops m0 ops = some m) :
    m.entry_count = m.buckets.flatten.length % 2 ^ 32
    ∧ (m.buckets.flatten.map hmap_entry_type.key).Nodup
    ∧ m.entry_count
        = (m.buckets.flatten.map hmap_entry_type.key).dedup.length % 2 ^ 32 := by
  have hwf := WF_run_ops m0 ops m (WF_create d b m0 h0) h
  have hnd := WF_flatten_nodup m hwf
  refine ⟨hwf.2.2, hnd, ?_⟩
  rw [List.Nodup.dedup hnd, List.length_map]
  exact hwf.2.2

/-- Witness for C7: the count/distinct-keys invariant evaluated on the
concrete table reached by `c7_ops` from a fresh eight-bucket table. -/
theorem c7_entry_count_matches_stored_keys_witness :
    c7_map_final.entry_count = c7_map_final.buckets.flatten.length % 2 ^ 32
    ∧ (c7_map_final.buckets.flatten.map hmap_entry_type.key).Nodup
    ∧ c7_map_final.entry_count
        = (c7_map_final.buckets.flatten.map
            hmap_entry_type.key).dedup.length % 2 ^ 32 :=
  c7_entry_count_matches_stored_keys (some default_def_8) true m8 (by rfl)
    c7_ops c7_map_final (by rfl)

/-- C4: the claim quantifies over every key already stored with a value.  On
the reachable constant-hash table holding six same-hash keys, `[5]` is
stored with value `[105]`, yet `set([5], [7, 8])` — a value of a different
length — overruns the 5-element candidate array during its lookup (`none`,
undefined behavior) instead of adjusting `total_size` by the delta and
storing the new bytes.  Below the cap the update behaves as claimed: on the
five-key table (total size 394) updating `[4]` from `[104]` to `[7, 8]`
succeeds, moves the size by exactly `2 - 1` to 395, and a get returns the
new value. -/
theorem c4_stored_key_update_overflows :
    map6.map (fun m => m.buckets.flatten.map (fun e => (e.key, e.data)))
      = some [([5], [105]), ([4], [104]), ([3], [103]), ([2], [102]),
          ([1], [101]), ([0], [100])]
    ∧ map6.bind (fun m => HMAP_set_data (some m) [5] [7, 8]) = none
    ∧ map5.map hmap_map_type.size = some 394
    ∧ map5.bind (fun m => (HMAP_set_data (some m) [4] [7, 8]).map Prod.fst)
        = some .SUCCESS
    ∧ (map5.bind (fun m => run_ops m [.set [4] [7, 8]])).map hmap_map_type.size
        = some 395
    ∧ (map5.bind (fun m => run_ops m [.set [4] [7, 8]])).bind
        (fun m => HMAP_get_data (some m) [4]) = some (.SUCCESS, some [7, 8]) :=
  ⟨rfl, rfl, rfl, rfl, rfl, rfl⟩
